import Mathlib

/-!
Verification of the chart-thing core algorithms against their TypeScript
source: the statistics engine and scale builder (`src/common.ts`), the 1D
and 2D binning engines (`BinStats1d`, `BinStats2d.tsx`), and the line
compression and segmentation pass (`LineSegments` in `RibbonChart.tsx`).

Modelling conventions, used throughout:
* JavaScript numbers are modelled by `JSNum`: a rational (`fin q`) or the
  single value `nonfinite`, which stands for any of NaN, +Infinity and
  -Infinity.  Every code path studied here either filters non-finite
  numbers out (`Number.isFinite` guards) or produces them only as NaN
  (0/0, 0 * NaN), so merging the three non-finite floats loses nothing on
  these paths; comments mark the few places where lodash would treat an
  infinity differently from NaN.
* Float arithmetic is modelled exactly over ℚ.  The two genuinely
  irrational primitives, `Math.sqrt` and `Math.atan2` converted to
  degrees, plus `Math.pow(n, 1/3)` used by the bin-width heuristic, are
  parameters of the model (structure `Geom`): every theorem holds for all
  instantiations (with explicitly stated hypotheses such as
  non-negativity of `sqrt` where a claim needs them), and concrete
  counterexamples instantiate them only at inputs where the float
  functions' values are exact or where all comparisons have slack.
* The two perceptual color metrics from the external chroma-js library
  are likewise parameters (`deltaE`, `cdist` in `Params`).
-/

namespace Chart

/-- A JavaScript number: a finite rational, or a non-finite value
(NaN / ±Infinity, merged; see the module comment). -/
inductive JSNum where
  | fin (q : ℚ)
  | nonfinite
deriving DecidableEq, Repr

/-- JS subtraction: non-finite operands propagate. -/
def jsSub : JSNum → JSNum → JSNum
  | .fin a, .fin b => .fin (a - b)
  | _, _ => .nonfinite

/-- JS multiplication: any non-finite operand yields a non-finite result
(`0 * NaN = NaN`, `0 * Infinity = NaN`, `q * Infinity = ±Infinity`). -/
def jsMul : JSNum → JSNum → JSNum
  | .fin a, .fin b => .fin (a * b)
  | _, _ => .nonfinite

/-- JS division: division by zero is non-finite (`a/0 = ±Infinity`,
`0/0 = NaN`); a non-finite operand yields a non-finite result on the
paths exercised here (the divisor is non-finite only as NaN). -/
def jsDiv : JSNum → JSNum → JSNum
  | .fin a, .fin b => if b = 0 then .nonfinite else .fin (a / b)
  | _, _ => .nonfinite

/-- `Math.floor`; `Math.floor(NaN) = NaN`. -/
def jsFloor : JSNum → JSNum
  | .fin q => .fin ((⌊q⌋ : ℤ) : ℚ)
  | .nonfinite => .nonfinite

/-- `Math.min`; a NaN operand yields NaN. -/
def jsMin : JSNum → JSNum → JSNum
  | .fin a, .fin b => .fin (min a b)
  | _, _ => .nonfinite

/-- `Math.max`; a NaN operand yields NaN. -/
def jsMax : JSNum → JSNum → JSNum
  | .fin a, .fin b => .fin (max a b)
  | _, _ => .nonfinite

/-- lodash's bound coercion inside `_.clamp`: `toNumber` then NaN ↦ 0.
(lodash keeps an infinite bound; on the paths studied here a non-finite
bound only arises as NaN.) -/
def lodashBound : JSNum → ℚ
  | .fin q => q
  | .nonfinite => 0

/-- lodash `_.clamp(number, lower, upper)`: NaN input passes through,
otherwise the upper bound is applied first, then the lower bound. -/
def lodashClamp (n lo hi : JSNum) : JSNum :=
  match n with
  | .nonfinite => .nonfinite
  | .fin q => .fin (max (min q (lodashBound hi)) (lodashBound lo))

/-- Length of `_.range(0, e)`: `toFinite` maps NaN to 0, then the length
is `max(ceil(e), 0)`. -/
def lodashRangeLen : JSNum → ℕ
  | .fin q => if q ≤ 0 then 0 else (⌈q⌉ : ℤ).toNat
  | .nonfinite => 0

/-- Iteration count of `_.times(n, f)`: `toInteger` truncates and maps
NaN to 0; negative counts iterate zero times. -/
def lodashTimesLen : JSNum → ℕ
  | .fin q => if q < 1 then 0 else (⌊q⌋ : ℤ).toNat
  | .nonfinite => 0

/-- lodash `_.inRange(n, start, end)`: checks
`min(start,end) ≤ n < max(start,end)`. -/
def lodashInRange (n lo hi : ℚ) : Bool :=
  decide (min lo hi ≤ n) && decide (n < max lo hi)

/-- A raw accessor output (`attributeValue` result): either a JS number,
or any non-number value (string, boolean, null for a missing field, …),
all of which `attributeNumber` coerces to NaN. -/
inductive JSVal where
  | num (n : JSNum)
  | other
deriving DecidableEq, Repr

/-- `attributeNumber` (common.ts:40): non-number accessor output becomes
NaN; numbers (including NaN/Infinity) pass through.  The accessor itself
(string key or function) is modelled as an already-resolved
`α → JSVal`. -/
def attributeNumber : JSVal → JSNum
  | .num n => n
  | .other => .nonfinite

/-- `typeof value === "number"` for an `attributeNumber` result: always
true, since `attributeNumber` returns a JS number (NaN for non-numeric
input). -/
def isJSNumber (_ : JSNum) : Bool := true

/-- The external geometric primitives of the model: `Math.sqrt`,
`Math.atan2(y, x) * 180 / Math.PI`, and `Math.pow(n, 1/3)` applied to an
array length. -/
structure Geom where
  sqrt : ℚ → ℚ
  atan2deg : ℚ → ℚ → ℚ
  cbrtLen : ℕ → ℚ

/-- The `Stats` record of common.ts. -/
structure Stats where
  count : ℕ
  naCount : ℕ
  min : ℚ
  max : ℚ
  range : ℚ
  sum : ℚ
  mean : Option ℚ
  variance : Option ℚ
  stdev : Option ℚ
  median : Option ℚ
deriving DecidableEq, Repr

variable {α : Type}

/-- The finite accessor outputs of `attrStats`:
`arr.map(attributeNumber).filter(Number.isFinite)`. -/
def finiteValues (arr : List α) (acc : α → JSVal) : List ℚ :=
  arr.filterMap (fun a =>
    match attributeNumber (acc a) with
    | .fin q => some q
    | .nonfinite => none)

/-- `.sort((a, b) => a - b)`: ascending sort.  Insertion sort is used as
the model; any ascending sort of rationals gives the same list. -/
def sortedValues (arr : List α) (acc : α → JSVal) : List ℚ :=
  List.insertionSort (fun a b => a ≤ b) (finiteValues arr acc)

/-- `attrStats` (common.ts:62).  `min`/`max` use `|| 0` (identical to a
default of 0 since 0 is falsy); `variance ? sqrt(variance) : null` makes
a variance of exactly 0 yield a null stdev; the `count < 2 || mean ===
null` variance guard collapses to `count < 2` since mean is null exactly
when count is 0. -/
def attrStats (G : Geom) (arr : List α) (acc : α → JSVal) : Stats :=
  let s := sortedValues arr acc
  let count := s.length
  let naCount := arr.length - count
  let mn := s.headD 0
  let mx := s.getLastD 0
  let range := mx - mn
  let sum := s.foldl (fun a v => a + v) 0
  let meanVal := sum / (count : ℚ)
  let mean : Option ℚ := if count = 0 then none else some meanVal
  let variance : Option ℚ :=
    if count < 2 then none
    else some ((s.foldl (fun a v => a + (v - meanVal) ^ 2) 0) / ((count : ℚ) - 1))
  let stdev : Option ℚ :=
    match variance with
    | some v => if v = 0 then none else some (G.sqrt v)
    | none => none
  let median : Option ℚ :=
    if count = 1 then s.get? 0
    else if count % 2 = 0 then s.get? (count / 2)
    else some ((s.getD (count / 2) 0 + s.getD ((count + 1) / 2) 0) / 2)
  ⟨count, naCount, mn, mx, range, sum, mean, variance, stdev, median⟩

/-- `scaleTo` (common.ts:114): null passes through; otherwise, when
`max !== min`, compute `(datum - min) / range` in JS arithmetic (the
`range` field, which can differ from `max - min` under overrides), else
return 0 — note that a NaN datum also returns the number 0 in this
degenerate branch. -/
def scaleTo (d : Option JSNum) (range : Stats) : Option JSNum :=
  match d with
  | none => none
  | some v =>
    if range.max ≠ range.min then
      some (jsDiv (jsSub v (.fin range.min)) (.fin range.range))
    else some (.fin 0)

/-- `Partial<Stats>`: the optional field overrides merged by
`Object.assign` in `attrScale`. -/
structure PartialStats where
  count? : Option ℕ
  naCount? : Option ℕ
  min? : Option ℚ
  max? : Option ℚ
  range? : Option ℚ
  sum? : Option ℚ
  mean? : Option (Option ℚ)
  variance? : Option (Option ℚ)
  stdev? : Option (Option ℚ)
  median? : Option (Option ℚ)

/-- The all-absent override (an omitted `override` argument). -/
def noOverride : PartialStats :=
  ⟨none, none, none, none, none, none, none, none, none, none⟩

/-- `Object.assign(stats, override)`: present fields replace. -/
def applyOverride (s : Stats) (o : PartialStats) : Stats :=
  ⟨o.count?.getD s.count, o.naCount?.getD s.naCount, o.min?.getD s.min,
   o.max?.getD s.max, o.range?.getD s.range, o.sum?.getD s.sum,
   o.mean?.getD s.mean, o.variance?.getD s.variance,
   o.stdev?.getD s.stdev, o.median?.getD s.median⟩

/-- The statistics object carried by `attrScale`. -/
def attrScaleStats (G : Geom) (arr : List α) (acc : α → JSVal)
    (ov : PartialStats) : Stats :=
  applyOverride (attrStats G arr acc) ov

/-- The call operator of the `Scale` returned by `attrScale`
(common.ts:125).  The source guard `if (typeof value !== 'number')
return null` can never fire, because `attributeNumber` always returns a
JS number (NaN for non-numeric input); `isJSNumber` keeps the dead
branch visible. -/
def attrScaleApply (G : Geom) (arr : List α) (acc : α → JSVal)
    (ov : PartialStats) (d : α) : Option JSNum :=
  let value := attributeNumber (acc d)
  if isJSNumber value then scaleTo (some value) (attrScaleStats G arr acc ov)
  else none

/-! ## Line compression and segmentation (`LineSegments`, RibbonChart.tsx) -/

/-- A point entering the compression pass: `x`/`y` are the pixel-scale
outputs `xScale(point)` / `yScale(point)` (`none` models a null or
non-finite value, which the pass drops); `color` is the `colorScale`
output (the constant "black" when no color scale is configured);
`continuous` is the coerced continuity-accessor output
(`continuity ? !!attributeValue(point, continuity) : true`). -/
structure InPt where
  x : Option ℚ
  y : Option ℚ
  color : String
  continuous : Bool
deriving DecidableEq, Repr

/-- The `SegmentPoint` record.  `angle`/`gradientAngle` are `Option`
because the initial point's literal omits them (they are `undefined`). -/
structure SegmentPoint where
  xComponent : ℚ
  yComponent : ℚ
  distance : ℚ
  x : ℚ
  y : ℚ
  index : ℕ
  angle : Option ℚ
  color1 : String
  color2 : String
  gradientAngle : Option ℚ
  flipGradient : Bool
  continuous : Bool
deriving DecidableEq, Repr

/-- The configuration of a `LineSegments` invocation, plus the viewport
size from the coordinate context and the two chroma-js color metrics
(external library, kept abstract). -/
structure Params where
  resolution : ℚ
  strokeWidth : ℚ
  colorResolution : ℚ
  width : ℚ
  height : ℚ
  deltaE : String → String → ℚ
  cdist : String → String → ℚ

/-- `ANGLE_RESOLUTION` (RibbonChart.tsx line 208). -/
def angleResBase : ℚ := 5

/-- `dissimilarColors` (RibbonChart.tsx line 214): identical colors are
never dissimilar; two truthy (non-empty) distinct colors are dissimilar
when `min(deltaE, distance-metric) * pixel-distance > colorResolution`;
a falsy color makes the pair dissimilar. -/
def dissimilarColors (P : Params) (sp : SegmentPoint) : Bool :=
  if sp.color1 = sp.color2 then false
  else if sp.color1 ≠ "" ∧ sp.color2 ≠ "" then
    decide (P.colorResolution <
      min (P.deltaE sp.color1 sp.color2) (P.cdist sp.color1 sp.color2) * sp.distance)
  else true

/-- `_.inRange(x, 0, width) && _.inRange(y, 0, height)`
(RibbonChart.tsx line 348). -/
def onScreen (P : Params) (x y : ℚ) : Bool :=
  lodashInRange x 0 P.width && lodashInRange y 0 P.height

/-- `resolutionForThisPoint` (line 349): the configured resolution on
screen, the constant 50 off screen. -/
def resolutionFor (P : Params) (x y : ℚ) : ℚ :=
  if onScreen P x y then P.resolution else 50

/-- `angleResolutionForThisPoint` (line 350): `ANGLE_RESOLUTION` (5) on
screen, 20 off screen. -/
def angleResolutionFor (P : Params) (x y : ℚ) : ℚ :=
  if onScreen P x y then angleResBase else 20

/-- The initial `SegmentPoint` literal (RibbonChart.tsx lines 294-307):
built from the first finite projected point, with distance 0,
`continuous: false`, `color1 = color2` its own color, and no angle. -/
def initSeg (x y : ℚ) (idx : ℕ) (color : String) : SegmentPoint :=
  ⟨0, 0, 0, x, y, idx, none, color, color, none, false, false⟩

/-- The `newPoint` record built for a non-initial projected point
(lines 314-346): distance and angle to the last retained point,
`color1` the last retained point's outgoing color, `color2` the new
point's color. -/
def mkSeg (G : Geom) (lp : SegmentPoint) (x y : ℚ) (idx : ℕ)
    (color : String) (cont : Bool) : SegmentPoint :=
  let distance := G.sqrt ((x - lp.x) ^ 2 + (y - lp.y) ^ 2)
  let angle := G.atan2deg (y - lp.y) (x - lp.x)
  ⟨x - lp.x, y - lp.y, distance, x, y, idx, some angle, lp.color2, color,
   some angle, false, cont⟩

/-- The `keep` condition (lines 352-359).  The angle clause is guarded
by JS truthiness of `lastPoint.angle`: it is skipped when the last
retained point's angle is `undefined` (the initial point) or exactly 0;
both distance comparisons are `>=`. -/
def keepDecision (P : Params) (lp np : SegmentPoint) : Bool :=
  decide (P.strokeWidth ≤ np.distance) &&
  (dissimilarColors P np ||
   decide (np.continuous ≠ lp.continuous) ||
   decide (resolutionFor P np.x np.y ≤ np.distance) ||
   (match lp.angle with
    | none => false
    | some a =>
      if a = 0 then false
      else decide (angleResolutionFor P np.x np.y ≤ |a - np.angle.getD 0|)))

/-- The compression state: the `compressed` accumulator, a list whose
entries are standalone segment points or runs (arrays) of segment
points. -/
abbrev CState := List (SegmentPoint ⊕ List SegmentPoint)

/-- Fallback segment point for `last` of an empty run; every run in a
reachable state is nonempty (runs are created with two elements and only
appended to), so this value is never consulted there. -/
def phantomSeg : SegmentPoint := initSeg 0 0 0 ""

/-- `last(lastCompressed)`: the last retained point, whether the last
accumulator entry is a standalone point or a run. -/
def lastSegOf : SegmentPoint ⊕ List SegmentPoint → SegmentPoint
  | .inl sp => sp
  | .inr run => run.getLastD phantomSeg

/-- One iteration of the `points.reduce` body (lines 276-377): drop
non-finite projections; seed the accumulator with the initial point;
otherwise build `newPoint`, decide `keep`, and either merge into /
start a uniform-color run or push a standalone transition point. -/
def step (G : Geom) (P : Params) (st : CState) (idx : ℕ) (p : InPt) : CState :=
  match p.x, p.y with
  | some x, some y =>
    match st.getLast? with
    | none => [.inl (initSeg x y idx p.color)]
    | some lastC =>
      let lp := lastSegOf lastC
      let np := mkSeg G lp x y idx p.color p.continuous
      if keepDecision P lp np then
        if !dissimilarColors P np && !dissimilarColors P lp then
          match lastC with
          | .inr run => st.dropLast ++ [.inr (run ++ [np])]
          | .inl _ => st ++ [.inr [lp, np]]
        else st ++ [.inl np]
      else st
  | _, _ => st

/-- The reduce carrying the running input index. -/
def compressAux (G : Geom) (P : Params) : CState → ℕ → List InPt → CState
  | st, _, [] => st
  | st, idx, p :: ps => compressAux G P (step G P st idx p) (idx + 1) ps

/-- The full compression pass: `points.reduce(..., [])` with the input
array index. -/
def compress (G : Geom) (P : Params) (pts : List InPt) : CState :=
  compressAux G P [] 0 pts

/-- `compressed.flat()`: all retained segment points in order (a point
that both ends a standalone entry and heads a run appears twice). -/
def flattenState : CState → List SegmentPoint
  | [] => []
  | .inl sp :: rest => sp :: flattenState rest
  | .inr run :: rest => run ++ flattenState rest

/-- The distinct input indices retained by the pass. -/
def retainedIndices (st : CState) : List ℕ :=
  ((flattenState st).map (fun sp => sp.index)).dedup

/-! ## 1D binning (`BinStats1d`) -/

/-- A 1D bin: `{xBin, data}`. -/
structure Bin1 (α : Type) where
  xBin : ℕ
  data : List α
deriving DecidableEq, Repr

/-- The statistics of the x scale: `attrScale(points, x)` with no
override. -/
def stats1d (G : Geom) (pts : List α) (x : α → JSVal) : Stats :=
  attrStats G pts x

/-- `xBinWidth` (BinStats1d lines 31-34): Freedman-Diaconis
`3.5 * stdev / points.length^(1/3)` when stdev is a number, else
`range / 20`. -/
def xBinWidth1d (G : Geom) (pts : List α) (x : α → JSVal) : JSNum :=
  match (stats1d G pts x).stdev with
  | some s => jsDiv (.fin (7 / 2 * s)) (.fin (G.cbrtLen pts.length))
  | none => jsDiv (.fin (stats1d G pts x).range) (.fin 20)

/-- `xBins = Math.floor(range / xBinWidth)` (line 36); `floor(0/0) =
NaN` on a zero-range dataset. -/
def xBins1d (G : Geom) (pts : List α) (x : α → JSVal) : JSNum :=
  jsFloor (jsDiv (.fin (stats1d G pts x).range) (xBinWidth1d G pts x))

/-- The seeded accumulator `_.range(0, xBins).map(xBin => ({xBin,
data: []}))`. -/
def seed1 (n : ℕ) : List (Bin1 α) :=
  (List.range n).map (fun i => ⟨i, []⟩)

/-- `xValue = xStatScale(p)` inside the reduce. -/
def xValue1d (G : Geom) (pts : List α) (x : α → JSVal) (p : α) : Option JSNum :=
  attrScaleApply G pts x noOverride p

/-- `_.clamp(Math.floor(xValue * xBins), 0, xBins - 1)` (line 54). -/
def binIndex (xBins : JSNum) (v : ℚ) : JSNum :=
  lodashClamp (jsFloor (jsMul (.fin v) xBins)) (.fin 0) (jsSub xBins (.fin 1))

/-- A JS array index for a rational subscript: defined only for
non-negative integers (any other subscript reads `undefined`). -/
def jsIndex (q : ℚ) : Option ℕ :=
  if 0 ≤ q ∧ q.den = 1 then some q.num.toNat else none

/-- `bins[xBin].data.push(p)`: `none` models the TypeError thrown when
the subscript is NaN, negative, fractional or out of range (the lookup
yields `undefined` and `.data` throws). -/
def pushAt (bins : List (Bin1 α)) (idx : JSNum) (p : α) : Option (List (Bin1 α)) :=
  match idx with
  | .nonfinite => none
  | .fin q =>
    match jsIndex q with
    | none => none
    | some i =>
      match bins.get? i with
      | none => none
      | some b => some (bins.set i ⟨b.xBin, b.data ++ [p]⟩)

/-- The body of the binning reduce (BinStats1d lines 45-60): skip
records whose scaled x value is not a finite number, otherwise push the
record onto its clamped bin. -/
def binStep1 (G : Geom) (pts : List α) (x : α → JSVal) (xb : JSNum)
    (ob : Option (List (Bin1 α))) (p : α) : Option (List (Bin1 α)) :=
  match ob with
  | none => none
  | some bins =>
    match xValue1d G pts x p with
    | some (.fin v) => pushAt bins (binIndex xb v) p
    | _ => some bins

/-- The 1D binning computation: seed, reduce, `Object.values` (identity
on an array).  `none` models a thrown TypeError. -/
def bins1d (G : Geom) (pts : List α) (x : α → JSVal) : Option (List (Bin1 α)) :=
  pts.foldl (binStep1 G pts x (xBins1d G pts x))
    (some (seed1 (lodashRangeLen (xBins1d G pts x))))

/-! ## 2D binning (`BinStats2d.tsx`) -/

/-- A 2D bin: `{xBin, yBin, data}`. -/
structure Bin2 (α : Type) where
  xBin : ℕ
  yBin : ℕ
  data : List α
deriving DecidableEq, Repr

/-- The Freedman-Diaconis estimate shared by both axes of
`BinStats2d`, with the `range / 20` fallback for a null stdev. -/
def fdWidth (G : Geom) (s : Stats) (n : ℕ) : JSNum :=
  match s.stdev with
  | some sd => jsDiv (.fin (7 / 2 * sd)) (.fin (G.cbrtLen n))
  | none => jsDiv (.fin s.range) (.fin 20)

/-- `xBinWidth` (BinStats2d lines 38-46):
`min(range/20, max(fd, range/100))`. -/
def xBinWidth2d (G : Geom) (pts : List α) (x : α → JSVal) : JSNum :=
  let s := attrStats G pts x
  jsMin (jsDiv (.fin s.range) (.fin 20))
    (jsMax (fdWidth G s pts.length) (jsDiv (.fin s.range) (.fin 100)))

/-- `yBinWidth` (lines 48-53): `max(fd, range/100)`, with no upper
clamp. -/
def yBinWidth2d (G : Geom) (pts : List α) (y : α → JSVal) : JSNum :=
  let s := attrStats G pts y
  jsMax (fdWidth G s pts.length) (jsDiv (.fin s.range) (.fin 100))

/-- `xBins` (line 55). -/
def xBins2d (G : Geom) (pts : List α) (x : α → JSVal) : JSNum :=
  jsFloor (jsDiv (.fin (attrStats G pts x).range) (xBinWidth2d G pts x))

/-- `yBins` (line 56). -/
def yBins2d (G : Geom) (pts : List α) (y : α → JSVal) : JSNum :=
  jsFloor (jsDiv (.fin (attrStats G pts y).range) (yBinWidth2d G pts y))

/-- The x-major grid of index pairs produced by
`_.flatten(_.times(xBins, xBin => _.times(yBins, yBin => ...)))`. -/
def gridPairs (kx ky : ℕ) : List (ℕ × ℕ) :=
  ((List.range kx).map (fun i => (List.range ky).map (fun j => (i, j)))).flatten

/-- The object seeded with all grid cells, keyed `"xBin,yBin"`; the
string key is in bijection with the index pair, so the object is
modelled as its value list in insertion (x-major) order. -/
def seed2 (kx ky : ℕ) : List (Bin2 α) :=
  (gridPairs kx ky).map (fun ij => ⟨ij.1, ij.2, []⟩)

/-- A grid key from the two clamped JS indices: defined only when both
are non-negative integers; any other pair stringifies to a key absent
from the seeded object. -/
def gridKey (qi qj : JSNum) : Option (ℕ × ℕ) :=
  match qi, qj with
  | .fin a, .fin b =>
    match jsIndex a, jsIndex b with
    | some i, some j => some (i, j)
    | _, _ => none
  | _, _ => none

/-- `bins[key].data.push(p)` on the keyed object: the unique bin with
that key is extended; a missing key throws (`none`). -/
def pushAt2 (bins : List (Bin2 α)) (key : Option (ℕ × ℕ)) (p : α) :
    Option (List (Bin2 α)) :=
  match key with
  | none => none
  | some (i, j) =>
    if bins.any (fun b => decide (b.xBin = i) && decide (b.yBin = j)) then
      some (bins.map (fun b =>
        if b.xBin = i ∧ b.yBin = j then ⟨b.xBin, b.yBin, b.data ++ [p]⟩ else b))
    else none

/-- The body of the 2D binning reduce (BinStats2d lines 72-94). -/
def binStep2 (G : Geom) (pts : List α) (x y : α → JSVal) (xb yb : JSNum)
    (ob : Option (List (Bin2 α))) (p : α) : Option (List (Bin2 α)) :=
  match ob with
  | none => none
  | some bins =>
    match attrScaleApply G pts x noOverride p,
          attrScaleApply G pts y noOverride p with
    | some (.fin vx), some (.fin vy) =>
      pushAt2 bins (gridKey (binIndex xb vx) (binIndex yb vy)) p
    | _, _ => some bins

/-- The 2D binning computation: seed all `xBins × yBins` cells, reduce,
`Object.values` in insertion order. -/
def bins2d (G : Geom) (pts : List α) (x y : α → JSVal) : Option (List (Bin2 α)) :=
  pts.foldl (binStep2 G pts x y (xBins2d G pts x) (yBins2d G pts y))
    (some (seed2 (lodashTimesLen (xBins2d G pts x)) (lodashTimesLen (yBins2d G pts y))))

/-! ## Bin-assignment predicates (used to state the partition claims) -/

/-- The claim's bin-index formula
`clamp(floor(normalizedX × binCount), 0, binCount − 1)` as a natural
index, for a finite bin count `k`. -/
def binIdxNat (k : ℕ) (v : ℚ) : ℕ :=
  (max (min ⌊v * (k : ℚ)⌋ ((k : ℤ) - 1)) 0).toNat

/-- Whether a record lands in 1D bin `i`: its scaled x value is a
finite number whose clamped bin index is `i`. -/
def binPred (G : Geom) (pts : List α) (x : α → JSVal) (k i : ℕ) (p : α) : Bool :=
  match xValue1d G pts x p with
  | some (.fin v) => decide (binIdxNat k v = i)
  | _ => false

/-- Whether a record's scaled x value is a finite number. -/
def finiteX (G : Geom) (pts : List α) (x : α → JSVal) (p : α) : Bool :=
  match xValue1d G pts x p with
  | some (.fin _) => true
  | _ => false

/-- The bin list predicted for a processed prefix: bin `i` carries, in
input order, the records assigned to index `i`. -/
def mkBins1 (G : Geom) (pts : List α) (x : α → JSVal) (k : ℕ)
    (processed : List α) : List (Bin1 α) :=
  (List.range k).map (fun i => ⟨i, processed.filter (binPred G pts x k i)⟩)

/-- Whether a record lands in 2D cell `ij`. -/
def binPred2 (G : Geom) (pts : List α) (x y : α → JSVal) (kx ky : ℕ)
    (ij : ℕ × ℕ) (p : α) : Bool :=
  match attrScaleApply G pts x noOverride p,
        attrScaleApply G pts y noOverride p with
  | some (.fin vx), some (.fin vy) =>
    decide (binIdxNat kx vx = ij.1 ∧ binIdxNat ky vy = ij.2)
  | _, _ => false

/-- Whether both scaled values of a record are finite numbers. -/
def finiteXY (G : Geom) (pts : List α) (x y : α → JSVal) (p : α) : Bool :=
  match attrScaleApply G pts x noOverride p,
        attrScaleApply G pts y noOverride p with
  | some (.fin _), some (.fin _) => true
  | _, _ => false

/-- The 2D cell list predicted for a processed prefix, in x-major seed
order. -/
def mkBins2 (G : Geom) (pts : List α) (x y : α → JSVal) (kx ky : ℕ)
    (processed : List α) : List (Bin2 α) :=
  (gridPairs kx ky).map
    (fun ij => ⟨ij.1, ij.2, processed.filter (binPred2 G pts x y kx ky ij)⟩)

/-! ## The spec's keep condition, and concrete instances -/

/-- The keep condition exactly as the specification words it (claim C1):
distance at least `strokeWidth`, AND at least one of dissimilar colors,
changed continuity, distance strictly exceeding the resolution in
effect, or the incoming angle differing from the previous retained
point's incoming angle by strictly more than the angle resolution in
effect.  This definition follows the spec's words, to be compared with
`keepDecision`, which follows the source: the spec has no truthiness
guard on the previous angle and uses strict comparisons. -/
def specKeepC1 (P : Params) (lp np : SegmentPoint) : Bool :=
  decide (P.strokeWidth ≤ np.distance) &&
  (dissimilarColors P np ||
   decide (np.continuous ≠ lp.continuous) ||
   decide (resolutionFor P np.x np.y < np.distance) ||
   (match lp.angle with
    | none => false
    | some a => decide (angleResolutionFor P np.x np.y < |a - np.angle.getD 0|)))

/-- A trivial stand-in for the two chroma-js color metrics; the
concrete scenarios below only ever compare identical colors, for which
`dissimilarColors` short-circuits before consulting the metrics. -/
def zeroMetric : String → String → ℚ := fun _ _ => 0

/-- Concrete parameters with color resolution 5 (the default) and
abstract color metrics stubbed out. -/
def mkParams (res sw w h : ℚ) : Params :=
  ⟨res, sw, 5, w, h, zeroMetric, zeroMetric⟩

/-- Geometry for the C1 scenarios: exact values of float `sqrt` at the
perfect squares used, and of degree `atan2` on the axis directions used
(`atan2(0, +x) = 0` exactly in floats; `atan2(+y, 0)` is 90 up to float
rounding, and every comparison against it has wide slack). -/
def geomC1 : Geom :=
  ⟨fun q => if q = 49 then 7 else if q = 100 then 10 else if q = 36 then 6 else 0,
   fun y x => if y = 0 then 0 else if x = 0 then 90 else 0,
   fun _ => 1⟩

/-- C1 scenario A: resolution 8, stroke width 5, a 1000×1000 viewport. -/
def pC1a : Params := mkParams 8 5 1000 1000

/-- C1 scenario A input: a horizontal step of 10 then a vertical step
of 7, uniform color and continuity. -/
def ptsC1a : List InPt :=
  [⟨some 0, some 0, "a", false⟩, ⟨some 10, some 0, "a", false⟩,
   ⟨some 10, some 7, "a", false⟩]

/-- C1 scenario B: resolution 6, stroke width 5. -/
def pC1b : Params := mkParams 6 5 1000 1000

/-- C1 scenario B input: a single step of exactly the resolution. -/
def ptsC1b : List InPt :=
  [⟨some 0, some 0, "a", false⟩, ⟨some 6, some 0, "a", false⟩]

/-- Geometry for the C2 and C9 scenarios (axis-aligned steps and the
diagonal, with float-exact or slack-robust values). -/
def geomC2 : Geom :=
  ⟨fun q => if q = 1 then 1 else if q = 400 then 20 else 0,
   fun _ _ => 0, fun _ => 1⟩

/-- C2 scenario A: the default stroke width 5 with resolution 0. -/
def pC2a : Params := mkParams 0 5 10 10

/-- C2 scenario A input: two on-screen points one pixel apart. -/
def ptsC2a : List InPt :=
  [⟨some 0, some 0, "a", false⟩, ⟨some 1, some 0, "a", false⟩]

/-- C2 scenario B: stroke width 0 with resolution 0. -/
def pC2b : Params := mkParams 0 0 10 10

/-- C2 scenario B input: the second point falls outside the 10×10
viewport, 20 pixels away. -/
def ptsC2b : List InPt :=
  [⟨some 0, some 0, "a", false⟩, ⟨some 20, some 0, "a", false⟩]

/-- Geometry for the C9 monotonicity scenario: float-exact square roots
of 1, 4, 9, 100, an under-approximation of sqrt 200 ≈ 14.14 (only
compared with slack), and degree `atan2` on the four axis directions
and the diagonal. -/
def geomC9 : Geom :=
  ⟨fun q => if q = 100 then 10 else if q = 200 then 14 else if q = 9 then 3
    else if q = 4 then 2 else if q = 1 then 1 else 0,
   fun y x =>
    if x = 0 then (if 0 < y then 90 else if y < 0 then -90 else 0)
    else if y = 0 then 0
    else if y = x then 45 else 0,
   fun _ => 1⟩

/-- C9 parameters with a variable resolution: stroke width 0, uniform
color, constant continuity, everything on screen. -/
def pC9 (r : ℚ) : Params := mkParams r 0 1000 1000

/-- C9 input: east 10, then north to the diagonal point (10,10), then
north 3, then south 1. -/
def ptsC9 : List InPt :=
  [⟨some 0, some 0, "a", false⟩, ⟨some 10, some 0, "a", false⟩,
   ⟨some 10, some 10, "a", false⟩, ⟨some 10, some 13, "a", false⟩,
   ⟨some 10, some 12, "a", false⟩]

/-- A geometry whose external primitives are never consulted on the
paths exercised (all-equal datasets, degenerate ranges). -/
def geomTriv : Geom := ⟨fun _ => 0, fun _ _ => 0, fun _ => 1⟩

/-- The C3 failing input: two identical finite records (zero range). -/
def ptsC3 : List JSVal := [.num (.fin 1), .num (.fin 1)]

/-- The C4 record array: two finite values 0 and 2 plus one record with
a non-numeric accessor output. -/
def ptsC4 : List JSVal := [.num (.fin 0), .num (.fin 2), .other]

/-- The C6 values: sorted finite values [0, 0, 6], an odd count. -/
def ptsC6 : List JSVal := [.num (.fin 0), .num (.fin 0), .num (.fin 6)]

/-- Witness geometry for the binning claims: the dataset 0..7 has
variance 6 and length 8; `sqrt 6` is instantiated as 5/2 (float ≈
2.449; only compared with slack) and `pow(8, 1/3)` as 2. -/
def geomFD : Geom :=
  ⟨fun q => if q = 6 then 5 / 2 else 0, fun _ _ => 0,
   fun n => if n = 8 then 2 else 1⟩

/-- Witness input for C5: the eight values 0..7. -/
def ptsC5 : List JSVal := (List.range 8).map (fun i => .num (.fin i))

/-- Witness input for C7: the eight pairs (i, i), i = 0..7. -/
def ptsC7 : List (JSVal × JSVal) :=
  (List.range 8).map (fun i => (.num (.fin i), .num (.fin i)))

/-- The C7 failing input: a single record (zero range on both axes). -/
def ptsC7bad : List (JSVal × JSVal) := [(.num (.fin 1), .num (.fin 1))]

/-- C8 parameters: resolution 0 (the default). -/
def pC8 : Params := mkParams 0 5 10 10

/-! ## Shared lemmas -/

theorem flattenState_append (a b : CState) :
    flattenState (a ++ b) = flattenState a ++ flattenState b := by
  induction a with
  | nil => rfl
  | cons c rest ih => cases c <;> simp [flattenState, ih]

theorem getLast?_decomp {β : Type} {l : List β} {c : β} (h : l.getLast? = some c) :
    l = l.dropLast ++ [c] :=
  (List.dropLast_append_getLast? c h).symm

/-- The source's `keep` boolean, unfolded to a proposition. -/
theorem keepDecision_eq_true_iff (P : Params) (lp np : SegmentPoint) :
    keepDecision P lp np = true ↔
      (P.strokeWidth ≤ np.distance ∧
        (dissimilarColors P np = true ∨ np.continuous ≠ lp.continuous ∨
         resolutionFor P np.x np.y ≤ np.distance ∨
         ∃ a, lp.angle = some a ∧ a ≠ 0 ∧
           angleResolutionFor P np.x np.y ≤ |a - np.angle.getD 0|)) := by
  unfold keepDecision
  cases hA : lp.angle with
  | none => simp; intro _; tauto
  | some a =>
    by_cases h0 : a = 0 <;> simp [h0] <;> intro _ <;> tauto

/-- Any outcome of `step` on a nonempty state either leaves the state
unchanged (point dropped) or extends the flattened point list; the
length grows exactly when `keep` holds. -/
theorem flattenState_step_length (G : Geom) (P : Params) (st : CState)
    (lastC : SegmentPoint ⊕ List SegmentPoint) (h : st.getLast? = some lastC)
    (idx : ℕ) (x y : ℚ) (color : String) (cont : Bool) :
    (flattenState (step G P st idx ⟨some x, some y, color, cont⟩)).length
        > (flattenState st).length
      ↔ keepDecision P (lastSegOf lastC)
          (mkSeg G (lastSegOf lastC) x y idx color cont) = true := by
  have hdecomp := getLast?_decomp h
  have hsplit : flattenState st
      = flattenState st.dropLast ++ flattenState [lastC] := by
    conv_lhs => rw [hdecomp]
    rw [flattenState_append]
  unfold step
  simp only [h]
  by_cases hk : keepDecision P (lastSegOf lastC)
      (mkSeg G (lastSegOf lastC) x y idx color cont) = true
  · rw [if_pos hk]
    refine ⟨fun _ => hk, fun _ => ?_⟩
    by_cases hd : (!dissimilarColors P (mkSeg G (lastSegOf lastC) x y idx color cont)
        && !dissimilarColors P (lastSegOf lastC)) = true
    · rw [if_pos hd]
      cases lastC with
      | inl sp =>
        rw [flattenState_append]
        simp [flattenState]
      | inr run =>
        rw [hsplit, flattenState_append]
        simp [flattenState]
    · rw [if_neg hd, flattenState_append]
      simp [flattenState]
  · rw [if_neg hk]
    simp [hk]

/-! ## Claim C1 -/

/-- C1, counterexample.  Scenario A: after an initial point and a kept
horizontal step of 10 (incoming angle 0), a vertical step of 7 at
resolution 8 satisfies the claim's keep condition (distance 7 ≥ stroke
width 5 and the angle changed by 90 > 5), yet the pass drops it — the
source guards the angle clause by the truthiness of the previous angle,
and 0 is falsy.  Scenario B: a step of exactly the resolution (6) is
kept by the source (`>=`), though the claim's "exceeds" (strict) keep
condition is false. -/
theorem c1_counterexample :
    ((compress geomC1 pC1a (ptsC1a.take 2)).getLast?
        = some (.inr [initSeg 0 0 0 "a",
            mkSeg geomC1 (initSeg 0 0 0 "a") 10 0 1 "a" false])
      ∧ specKeepC1 pC1a (mkSeg geomC1 (initSeg 0 0 0 "a") 10 0 1 "a" false)
          (mkSeg geomC1 (mkSeg geomC1 (initSeg 0 0 0 "a") 10 0 1 "a" false)
            10 7 2 "a" false) = true
      ∧ retainedIndices (compress geomC1 pC1a ptsC1a) = [0, 1])
    ∧ ((compress geomC1 pC1b (ptsC1b.take 1)).getLast?
        = some (.inl (initSeg 0 0 0 "a"))
      ∧ specKeepC1 pC1b (initSeg 0 0 0 "a")
          (mkSeg geomC1 (initSeg 0 0 0 "a") 6 0 1 "a" false) = false
      ∧ retainedIndices (compress geomC1 pC1b ptsC1b) = [0, 1]) := by
  with_unfolding_all decide

/-- C1, amended: a non-initial projected point with finite coordinates
is retained by the compression pass if and only if its distance to the
last retained point is at least `strokeWidth` AND at least one of: the
colors of the new transition are dissimilar, the continuity flag differs
from the last retained point's, the distance is at least (not strictly
above) the resolution in effect for the point, or the last retained
point's incoming angle is defined and nonzero and differs from the new
incoming angle by at least (not strictly above) the angle resolution in
effect. -/
theorem c1_keep_characterization (G : Geom) (P : Params) (st : CState)
    (lastC : SegmentPoint ⊕ List SegmentPoint) (h : st.getLast? = some lastC)
    (idx : ℕ) (x y : ℚ) (color : String) (cont : Bool) :
    (flattenState (step G P st idx ⟨some x, some y, color, cont⟩)).length
        > (flattenState st).length
      ↔ (P.strokeWidth ≤ (mkSeg G (lastSegOf lastC) x y idx color cont).distance ∧
         (dissimilarColors P (mkSeg G (lastSegOf lastC) x y idx color cont) = true ∨
          cont ≠ (lastSegOf lastC).continuous ∨
          resolutionFor P x y ≤ (mkSeg G (lastSegOf lastC) x y idx color cont).distance ∨
          ∃ a, (lastSegOf lastC).angle = some a ∧ a ≠ 0 ∧
            angleResolutionFor P x y ≤
              |a - G.atan2deg (y - (lastSegOf lastC).y) (x - (lastSegOf lastC).x)|)) := by
  rw [flattenState_step_length G P st lastC h idx x y color cont,
      keepDecision_eq_true_iff]
  exact Iff.rfl

/-- Witness for `c1_keep_characterization` at a concrete nonempty state
and point. -/
theorem c1_keep_characterization_witness :
    (([Sum.inl (initSeg 0 0 0 "a")] : CState).getLast?
        = some (Sum.inl (initSeg 0 0 0 "a")))
    ∧ ((flattenState (step geomC1 pC1a [Sum.inl (initSeg 0 0 0 "a")] 1
          ⟨some 10, some 0, "a", false⟩)).length
        > (flattenState [Sum.inl (initSeg 0 0 0 "a")]).length
      ↔ (pC1a.strokeWidth
            ≤ (mkSeg geomC1 (lastSegOf (.inl (initSeg 0 0 0 "a"))) 10 0 1 "a" false).distance ∧
         (dissimilarColors pC1a
            (mkSeg geomC1 (lastSegOf (.inl (initSeg 0 0 0 "a"))) 10 0 1 "a" false) = true ∨
          false ≠ (lastSegOf (Sum.inl (initSeg 0 0 0 "a"))).continuous ∨
          resolutionFor pC1a 10 0
            ≤ (mkSeg geomC1 (lastSegOf (.inl (initSeg 0 0 0 "a"))) 10 0 1 "a" false).distance ∨
          ∃ a, (lastSegOf (Sum.inl (initSeg 0 0 0 "a"))).angle = some a ∧ a ≠ 0 ∧
            angleResolutionFor pC1a 10 0
              ≤ |a - geomC1.atan2deg (0 - (lastSegOf (Sum.inl (initSeg 0 0 0 "a"))).y)
                    (10 - (lastSegOf (Sum.inl (initSeg 0 0 0 "a"))).x)|))) :=
  ⟨rfl, c1_keep_characterization geomC1 pC1a [Sum.inl (initSeg 0 0 0 "a")]
    (Sum.inl (initSeg 0 0 0 "a")) rfl 1 10 0 "a" false⟩

theorem compressAux_append (G : Geom) (P : Params) (st : CState) (i : ℕ)
    (l l₂ : List InPt) :
    compressAux G P st i (l ++ l₂)
      = compressAux G P (compressAux G P st i l) (i + l.length) l₂ := by
  induction l generalizing st i with
  | nil => simp [compressAux]
  | cons p ps ih =>
    simp only [List.cons_append, compressAux, List.length_cons, List.append_eq]
    rw [ih]
    congr 1
    omega

theorem mem_flattenState_step (G : Geom) (P : Params) (st : CState) (idx : ℕ)
    (p : InPt) {sp : SegmentPoint} (h : sp ∈ flattenState st) :
    sp ∈ flattenState (step G P st idx p) := by
  obtain ⟨px, py, pc, pcont⟩ := p
  unfold step
  dsimp only
  cases px with
  | none => exact h
  | some x =>
    cases py with
    | none => exact h
    | some y =>
      cases hl : st.getLast? with
      | none =>
        have : st = [] := by simpa using hl
        subst this
        simp [flattenState] at h
      | some lastC =>
        dsimp only
        by_cases hk : keepDecision P (lastSegOf lastC)
            (mkSeg G (lastSegOf lastC) x y idx pc pcont) = true
        · rw [if_pos hk]
          by_cases hd : (!dissimilarColors P (mkSeg G (lastSegOf lastC) x y idx pc pcont)
              && !dissimilarColors P (lastSegOf lastC)) = true
          · rw [if_pos hd]
            cases lastC with
            | inl sp' =>
              rw [flattenState_append]
              exact List.mem_append_left _ h
            | inr run =>
              have hdec := getLast?_decomp hl
              rw [hdec, flattenState_append] at h
              rw [flattenState_append]
              rcases List.mem_append.mp h with h1 | h1
              · exact List.mem_append_left _ h1
              · refine List.mem_append_right _ ?_
                simp only [flattenState, List.append_nil] at h1 ⊢
                exact List.mem_append_left _ h1
          · rw [if_neg hd, flattenState_append]
            exact List.mem_append_left _ h
        · rw [if_neg hk]
          exact h

theorem step_adds_point (G : Geom) (P : Params) (st : CState) (idx : ℕ)
    (p : InPt) (qx qy : ℚ) (hx : p.x = some qx) (hy : p.y = some qy)
    (hsw : P.strokeWidth = 0) (hres : P.resolution = 0)
    (hsqrt : ∀ q : ℚ, 0 ≤ q → 0 ≤ G.sqrt q)
    (hos : onScreen P qx qy = true) :
    ∃ sp ∈ flattenState (step G P st idx p),
      sp.index = idx ∧ sp.x = qx ∧ sp.y = qy := by
  obtain ⟨px, py, pc, pcont⟩ := p
  simp only at hx hy
  subst hx
  subst hy
  unfold step
  dsimp only
  cases hl : st.getLast? with
  | none => exact ⟨initSeg qx qy idx pc, by simp [flattenState], rfl, rfl, rfl⟩
  | some lastC =>
    dsimp only
    have hdist : 0 ≤ (mkSeg G (lastSegOf lastC) qx qy idx pc pcont).distance :=
      hsqrt _ (by positivity)
    have hkeep : keepDecision P (lastSegOf lastC)
        (mkSeg G (lastSegOf lastC) qx qy idx pc pcont) = true := by
      rw [keepDecision_eq_true_iff]
      refine ⟨by rw [hsw]; exact hdist, Or.inr (Or.inr (Or.inl ?_))⟩
      show resolutionFor P qx qy ≤ _
      unfold resolutionFor
      rw [if_pos hos, hres]
      exact hdist
    rw [if_pos hkeep]
    by_cases hd : (!dissimilarColors P (mkSeg G (lastSegOf lastC) qx qy idx pc pcont)
        && !dissimilarColors P (lastSegOf lastC)) = true
    · rw [if_pos hd]
      cases lastC with
      | inl sp' =>
        refine ⟨mkSeg G (lastSegOf (Sum.inl sp')) qx qy idx pc pcont, ?_, rfl, rfl, rfl⟩
        rw [flattenState_append]
        refine List.mem_append_right _ ?_
        simp [flattenState]
      | inr run =>
        refine ⟨mkSeg G (lastSegOf (Sum.inr run)) qx qy idx pc pcont, ?_, rfl, rfl, rfl⟩
        rw [flattenState_append]
        refine List.mem_append_right _ ?_
        simp [flattenState]
    · rw [if_neg hd]
      refine ⟨mkSeg G (lastSegOf lastC) qx qy idx pc pcont, ?_, rfl, rfl, rfl⟩
      rw [flattenState_append]
      refine List.mem_append_right _ ?_
      simp [flattenState]

/-! ## Claim C2 -/

/-- C2, counterexample.  Scenario A: with the default stroke width 5,
resolution 0, two finite on-screen points one pixel apart with the same
color and continuity — the second point is dropped (distance < stroke
width).  Scenario B: stroke width 0, but the second point is outside
the viewport — the off-screen threshold 50 drops it even at resolution
0. -/
theorem c2_counterexample :
    (retainedIndices (compress geomC2 pC2a ptsC2a) = [0]
      ∧ ptsC2a.length = 2
      ∧ (∀ p ∈ ptsC2a, p.color = "a" ∧ p.continuous = false
          ∧ p.x ≠ none ∧ p.y ≠ none)
      ∧ pC2a.resolution = 0)
    ∧ (retainedIndices (compress geomC2 pC2b ptsC2b) = [0]
      ∧ ptsC2b.length = 2
      ∧ (∀ p ∈ ptsC2b, p.color = "a" ∧ p.continuous = false
          ∧ p.x ≠ none ∧ p.y ≠ none)
      ∧ pC2b.resolution = 0 ∧ pC2b.strokeWidth = 0) := by
  with_unfolding_all decide

/-- C2, amended: with resolution 0 AND stroke width 0, and every point
finite and inside the viewport (with uniform color and continuity as
the claim assumes), the pass retains every input point: for each input
index there is a retained segment point with that index and the point's
projected coordinates.  The hypothesis on `sqrt` states the only fact
about the float primitive the proof needs: square roots of non-negative
numbers are non-negative. -/
theorem c2_zero_resolution_retains_all (G : Geom) (P : Params)
    (pts : List InPt) (c : String) (b : Bool)
    (hres : P.resolution = 0) (hsw : P.strokeWidth = 0)
    (hsqrt : ∀ q : ℚ, 0 ≤ q → 0 ≤ G.sqrt q)
    (hfin : ∀ p ∈ pts, ∃ qx qy, p.x = some qx ∧ p.y = some qy
      ∧ onScreen P qx qy = true)
    (hcol : ∀ p ∈ pts, p.color = c) (hcont : ∀ p ∈ pts, p.continuous = b) :
    ∀ i p, pts.get? i = some p →
      ∃ sp ∈ flattenState (compress G P pts),
        sp.index = i ∧ p.x = some sp.x ∧ p.y = some sp.y := by
  revert hfin hcol hcont
  induction pts using List.reverseRecOn with
  | nil =>
    intro _ _ _ i p hp
    simp at hp
  | append_singleton l q ih =>
    intro hfin hcol hcont i p hp
    have hcomp : compress G P (l ++ [q]) = step G P (compress G P l) l.length q := by
      unfold compress
      rw [compressAux_append]
      simp [compressAux]
    by_cases hi : i < l.length
    · have hp' : l.get? i = some p := by rw [← List.get?_append hi]; exact hp
      obtain ⟨sp, hmem, hrest⟩ :=
        ih (fun r hr => hfin r (List.mem_append_left _ hr))
          (fun r hr => hcol r (List.mem_append_left _ hr))
          (fun r hr => hcont r (List.mem_append_left _ hr)) i p hp'
      exact ⟨sp, hcomp ▸ mem_flattenState_step G P _ _ _ hmem, hrest⟩
    · have hlen : i < l.length + 1 := by
        obtain ⟨h, _⟩ := List.get?_eq_some.mp hp
        simpa using h
      have hieq : i = l.length := by omega
      subst hieq
      have hpq : p = q := by
        have := List.get?_concat_length l q
        rw [this] at hp
        exact (Option.some_inj.mp hp).symm
      subst hpq
      obtain ⟨qx, qy, hqx, hqy, hos⟩ := hfin p (by simp)
      obtain ⟨sp, hmem, h1, h2, h3⟩ :=
        step_adds_point G P (compress G P l) l.length p qx qy hqx hqy hsw hres hsqrt hos
      exact ⟨sp, hcomp ▸ hmem, h1, by rw [hqx, h2], by rw [hqy, h3]⟩

/-- Witness for `c2_zero_resolution_retains_all`: both points of a
two-point on-screen input are retained at resolution 0 and stroke
width 0. -/
theorem c2_zero_resolution_retains_all_witness :
    (∀ p ∈ ptsC2a, p.color = "a")
    ∧ ∀ i p, ptsC2a.get? i = some p →
        ∃ sp ∈ flattenState (compress geomC2 pC2b ptsC2a),
          sp.index = i ∧ p.x = some sp.x ∧ p.y = some sp.y :=
  ⟨by with_unfolding_all decide,
   c2_zero_resolution_retains_all geomC2 pC2b ptsC2a "a" false rfl rfl
     (fun q hq => by
       dsimp [geomC2]
       split_ifs <;> norm_num)
     (fun p hp => by
       simp only [ptsC2a, List.mem_cons, List.mem_singleton, List.not_mem_nil, or_false] at hp
       rcases hp with rfl | rfl
       · exact ⟨0, 0, rfl, rfl, by with_unfolding_all decide⟩
       · exact ⟨1, 0, rfl, rfl, by with_unfolding_all decide⟩)
     (by with_unfolding_all decide) (by with_unfolding_all decide)⟩

theorem step_head (G : Geom) (P : Params) (st : CState) (idx : ℕ) (p : InPt)
    (sp₀ : SegmentPoint) (h : st.head? = some (.inl sp₀)) :
    (step G P st idx p).head? = some (.inl sp₀) := by
  obtain ⟨px, py, pc, pcont⟩ := p
  unfold step
  dsimp only
  cases px with
  | none => exact h
  | some x =>
    cases py with
    | none => exact h
    | some y =>
      cases st with
      | nil => simp at h
      | cons c cs =>
        have hc : c = .inl sp₀ := by simpa using h
        subst hc
        cases hl : (Sum.inl sp₀ :: cs : CState).getLast? with
        | none => simp at hl
        | some lastC =>
          dsimp only
          by_cases hk : keepDecision P (lastSegOf lastC)
              (mkSeg G (lastSegOf lastC) x y idx pc pcont) = true
          · rw [if_pos hk]
            by_cases hd : (!dissimilarColors P (mkSeg G (lastSegOf lastC) x y idx pc pcont)
                && !dissimilarColors P (lastSegOf lastC)) = true
            · rw [if_pos hd]
              cases lastC with
              | inl sp' => rfl
              | inr run =>
                cases cs with
                | nil => simp at hl
                | cons c2 cs2 => rfl
            · rw [if_neg hd]
              rfl
          · rw [if_neg hk]
            rfl

theorem compressAux_head (G : Geom) (P : Params) (l : List InPt) (st : CState)
    (idx : ℕ) (sp₀ : SegmentPoint) (h : st.head? = some (.inl sp₀)) :
    (compressAux G P st idx l).head? = some (.inl sp₀) := by
  induction l generalizing st idx with
  | nil => exact h
  | cons p ps ih => exact ih _ _ (step_head G P st idx p sp₀ h)

theorem compressAux_nil_of_skip (G : Geom) (P : Params) (l : List InPt) (idx : ℕ)
    (h : ∀ p ∈ l, p.x = none ∨ p.y = none) :
    compressAux G P [] idx l = [] := by
  induction l generalizing idx with
  | nil => rfl
  | cons p ps ih =>
    have hp := h p (List.mem_cons_self p ps)
    have hstep : step G P [] idx p = [] := by
      obtain ⟨px, py, pc, pcont⟩ := p
      rcases hp with h1 | h1 <;> simp only at h1 <;> subst h1
      · rfl
      · cases px <;> rfl
    show compressAux G P (step G P [] idx p) (idx + 1) ps = []
    rw [hstep]
    exact ih (idx + 1) (fun r hr => h r (List.mem_cons_of_mem p hr))

/-! ## Claim C10 -/

/-- C10: if the input contains a point with both projected coordinates
finite, the compressed output is non-empty and its first element is the
standalone initial segment point built from the first such point: its
coordinates and input index, distance 0, `continuous = false`, equal
`color1`/`color2` (its own color) and no angle — for every geometry and
parameter configuration. -/
theorem c10_first_point (G : Geom) (P : Params) (pts : List InPt) (i : ℕ)
    (p : InPt) (qx qy : ℚ) (hi : pts.get? i = some p)
    (hx : p.x = some qx) (hy : p.y = some qy)
    (hbefore : ∀ j, j < i → ∀ pj, pts.get? j = some pj →
      pj.x = none ∨ pj.y = none) :
    (compress G P pts).head? = some (.inl (initSeg qx qy i p.color)) := by
  have hlen : i < pts.length := by
    obtain ⟨h, _⟩ := List.get?_eq_some.mp hi
    exact h
  have hget : pts.get ⟨i, hlen⟩ = p := by
    obtain ⟨h, hg⟩ := List.get?_eq_some.mp hi
    exact hg
  have hdrop : pts.drop i = p :: pts.drop (i + 1) := by
    rw [List.drop_eq_get_cons hlen, hget]
  have hsplit : pts = pts.take i ++ (p :: pts.drop (i + 1)) := by
    conv_lhs => rw [← List.take_append_drop i pts]
    rw [hdrop]
  rw [hsplit]
  unfold compress
  rw [compressAux_append]
  have htake : compressAux G P [] 0 (pts.take i) = [] := by
    refine compressAux_nil_of_skip G P _ 0 (fun r hr => ?_)
    obtain ⟨n, hn⟩ := List.mem_iff_get?.mp hr
    have hni : n < i := by
      by_contra hge
      push_neg at hge
      have : (pts.take i).get? n = none := by
        rw [List.get?_eq_none]
        calc (pts.take i).length ≤ i := by rw [List.length_take]; omega
        _ ≤ n := hge
      rw [this] at hn
      exact Option.noConfusion hn
    exact hbefore n hni r (by rw [← List.get?_take hni]; exact hn)
  rw [htake]
  have hlen2 : (pts.take i).length = i := by rw [List.length_take]; omega
  rw [hlen2, Nat.zero_add]
  show (compressAux G P (step G P [] i p) (i + 1) (pts.drop (i + 1))).head? = _
  have hstep : step G P [] i p = [.inl (initSeg qx qy i p.color)] := by
    obtain ⟨px, py, pc, pcont⟩ := p
    simp only at hx hy
    subst hx
    subst hy
    rfl
  rw [hstep]
  exact compressAux_head G P _ _ _ _ rfl

/-- Witness for `c10_first_point`: the first point has a missing x
projection, so the head of the output is the initial segment point of
the second point with index 1. -/
theorem c10_first_point_witness :
    (compress geomC2 pC2a
        [⟨none, some 1, "b", true⟩, ⟨some 3, some 4, "b", true⟩]).head?
      = some (.inl (initSeg 3 4 1 "b")) :=
  c10_first_point geomC2 pC2a
    [⟨none, some 1, "b", true⟩, ⟨some 3, some 4, "b", true⟩] 1
    ⟨some 3, some 4, "b", true⟩ 3 4 rfl rfl rfl
    (fun j hj pj hpj => by
      match j, hj with
      | 0, _ =>
        simp only [List.get?] at hpj
        obtain rfl := Option.some_inj.mp hpj
        exact Or.inl rfl)


/-- C3: on a zero-range dataset (two identical finite records) the 1D
binning engine does not return a single catch-all bin — it fails (the
bin count is `floor(0/0) = NaN`, no bins are seeded, and the first
record's `bins[NaN].data.push` throws a TypeError, modelled as
`none`). -/
theorem c3_zero_range_failure :
    (stats1d geomTriv ptsC3 (fun v => v)).range = 0
    ∧ xBins1d geomTriv ptsC3 (fun v => v) = .nonfinite
    ∧ bins1d geomTriv ptsC3 (fun v => v) = none := by
  with_unfolding_all decide

/-! ## Claim C4 -/

/-- C4, counterexample: for a record whose accessor output is
non-numeric, `attributeNumber` yields NaN — a JS *number* — so the scale
callable returns the non-finite number NaN (here over the stats of
[0, 2, other], whose min 0 and max 2 differ), not null as the claim
states. -/
theorem c4_counterexample :
    attributeNumber JSVal.other = .nonfinite
    ∧ (attrScaleStats geomTriv ptsC4 (fun v => v) noOverride).min
        ≠ (attrScaleStats geomTriv ptsC4 (fun v => v) noOverride).max
    ∧ attrScaleApply geomTriv ptsC4 (fun v => v) noOverride .other = some .nonfinite
    ∧ attrScaleApply geomTriv ptsC4 (fun v => v) noOverride .other ≠ none := by
  with_unfolding_all decide

/-- C4, amended: the scale callable never returns null (the source's
`typeof` guard is dead because `attributeNumber` coerces non-numeric
values to NaN).  When min == max it returns the number 0 for every
record, finite-valued or not; when min ≠ max and the range field is
nonzero it returns `(value − min)/range` for a finite accessor output;
when min ≠ max a non-finite accessor output propagates to a non-finite
number (NaN), not null. -/
theorem c4_scale_characterization (G : Geom) (arr : List α) (acc : α → JSVal)
    (ov : PartialStats) (d : α) :
    attrScaleApply G arr acc ov d ≠ none
    ∧ ((attrScaleStats G arr acc ov).min = (attrScaleStats G arr acc ov).max →
        attrScaleApply G arr acc ov d = some (.fin 0))
    ∧ ((attrScaleStats G arr acc ov).min ≠ (attrScaleStats G arr acc ov).max →
        (attrScaleStats G arr acc ov).range ≠ 0 →
        ∀ q : ℚ, attributeNumber (acc d) = .fin q →
          attrScaleApply G arr acc ov d
            = some (.fin ((q - (attrScaleStats G arr acc ov).min)
                / (attrScaleStats G arr acc ov).range)))
    ∧ ((attrScaleStats G arr acc ov).min ≠ (attrScaleStats G arr acc ov).max →
        attributeNumber (acc d) = .nonfinite →
        attrScaleApply G arr acc ov d = some .nonfinite) := by
  have hmain : attrScaleApply G arr acc ov d
      = scaleTo (some (attributeNumber (acc d))) (attrScaleStats G arr acc ov) := rfl
  by_cases h : (attrScaleStats G arr acc ov).max = (attrScaleStats G arr acc ov).min
  · have hval : attrScaleApply G arr acc ov d = some (.fin 0) := by
      rw [hmain]; simp [scaleTo, h]
    exact ⟨by rw [hval]; simp, fun _ => hval, fun hne => (hne h.symm).elim,
      fun hne _ => (hne h.symm).elim⟩
  · refine ⟨?_, fun he => (h he.symm).elim, fun _ hr q hq => ?_, fun _ hq => ?_⟩
    · rw [hmain]; simp [scaleTo, h]
    · rw [hmain]; simp [scaleTo, h, hq, jsSub, jsDiv, hr]
    · rw [hmain]; simp [scaleTo, h, hq, jsSub, jsDiv]

/-- Witness for `c4_scale_characterization`: the finite record 2 over
the stats of [0, 2, other] scales to (2 − 0)/2. -/
theorem c4_scale_characterization_witness :
    ((attrScaleStats geomTriv ptsC4 (fun v => v) noOverride).min
        ≠ (attrScaleStats geomTriv ptsC4 (fun v => v) noOverride).max)
    ∧ attrScaleApply geomTriv ptsC4 (fun v => v) noOverride (JSVal.num (.fin 2))
        = some (.fin ((2 - (attrScaleStats geomTriv ptsC4 (fun v => v) noOverride).min)
            / (attrScaleStats geomTriv ptsC4 (fun v => v) noOverride).range)) :=
  ⟨by with_unfolding_all decide,
   (c4_scale_characterization geomTriv ptsC4 (fun v => v) noOverride
      (JSVal.num (.fin 2))).2.2.1 (by with_unfolding_all decide)
      (by with_unfolding_all decide) 2 (by with_unfolding_all decide)⟩

/-! ## Claim C6 -/

/-- C6, counterexample: for the odd-count dataset [0, 0, 6] the median
computed by `attrStats` is (s[1] + s[2])/2 = 3, which is not the middle
element s[⌊3/2⌋] = 0 — for an odd count the indices `floor(count/2)`
and `ceil(count/2)` are **not** the same index, contrary to the
claim. -/
theorem c6_counterexample :
    (sortedValues ptsC6 (fun v => v)).length = 3
    ∧ (sortedValues ptsC6 (fun v => v)).getD (3 / 2) 0 = 0
    ∧ (attrStats geomTriv ptsC6 (fun v => v)).median = some 3
    ∧ (attrStats geomTriv ptsC6 (fun v => v)).median
        ≠ some ((sortedValues ptsC6 (fun v => v)).getD (3 / 2) 0) := by
  with_unfolding_all decide

/-- C6, amended: over the ascending-sorted finite values, the median is
the single element for count 1, the single element at index `count/2`
for even counts (undefined for count 0), and for odd counts ≥ 3 the
average of the elements at `floor(count/2)` and `ceil(count/2)` — two
*adjacent distinct* indices, so generally not the middle element. -/
theorem c6_median_characterization (G : Geom) (arr : List α) (acc : α → JSVal) :
    List.Sorted (fun a b => a ≤ b) (sortedValues arr acc)
    ∧ (sortedValues arr acc).Perm (finiteValues arr acc)
    ∧ (attrStats G arr acc).median
        = (if (sortedValues arr acc).length = 1 then (sortedValues arr acc).get? 0
           else if (sortedValues arr acc).length % 2 = 0 then
             (sortedValues arr acc).get? ((sortedValues arr acc).length / 2)
           else some (((sortedValues arr acc).getD ((sortedValues arr acc).length / 2) 0
              + (sortedValues arr acc).getD (((sortedValues arr acc).length + 1) / 2) 0) / 2))
    ∧ (∀ c, c = (sortedValues arr acc).length → c % 2 = 1 → 3 ≤ c →
        c / 2 + 1 = (c + 1) / 2) := by
  refine ⟨List.sorted_insertionSort _ _, List.perm_insertionSort _ _, rfl, ?_⟩
  intro c _ hodd h3
  omega

/-- Witness for `c6_median_characterization` on the odd-count dataset
[0, 0, 6]. -/
theorem c6_median_characterization_witness :
    List.Sorted (fun a b => a ≤ b) (sortedValues ptsC6 (fun v => v))
    ∧ 3 = (sortedValues ptsC6 (fun v => v)).length
    ∧ 3 / 2 + 1 = (3 + 1) / 2 :=
  ⟨(c6_median_characterization geomTriv ptsC6 (fun v => v)).1,
   by with_unfolding_all decide,
   (c6_median_characterization geomTriv ptsC6 (fun v => v)).2.2.2 3
     (by with_unfolding_all decide) (by with_unfolding_all decide) (by norm_num)⟩

/-! ## Claim C8 -/

/-- C8, counterexample: with the default resolution 0, an off-screen
point's distance threshold is the constant 50, not
`resolution × 10 = 0`. -/
theorem c8_counterexample :
    onScreen pC8 (-1) 0 = false
    ∧ resolutionFor pC8 (-1) 0 = 50
    ∧ pC8.resolution * 10 = 0
    ∧ resolutionFor pC8 (-1) 0 ≠ pC8.resolution * 10 := by
  with_unfolding_all decide

/-- C8, amended: the thresholds used by the keep decision are the
constant 50 and `4 × ANGLE_RESOLUTION = 20` for a point outside the
viewport, and the configured resolution and `ANGLE_RESOLUTION = 5` for
a point inside it. -/
theorem c8_thresholds (P : Params) (x y : ℚ) :
    (onScreen P x y = false →
      resolutionFor P x y = 50 ∧ angleResolutionFor P x y = 4 * angleResBase)
    ∧ (onScreen P x y = true →
      resolutionFor P x y = P.resolution ∧ angleResolutionFor P x y = angleResBase) := by
  unfold resolutionFor angleResolutionFor angleResBase
  by_cases h : onScreen P x y = true
  · simp [h]
  · simp only [Bool.not_eq_true] at h
    simp [h]
    norm_num

/-- Witness for `c8_thresholds` at an off-screen point. -/
theorem c8_thresholds_witness :
    onScreen pC8 (-1) 0 = false
    ∧ resolutionFor pC8 (-1) 0 = 50
    ∧ angleResolutionFor pC8 (-1) 0 = 4 * angleResBase :=
  ⟨by with_unfolding_all decide,
   ((c8_thresholds pC8 (-1) 0).1 (by with_unfolding_all decide)).1,
   ((c8_thresholds pC8 (-1) 0).1 (by with_unfolding_all decide)).2⟩

/-! ## Claim C9 -/

/-- C9, counterexample: on the five-point input `ptsC9` with stroke
width 0, uniform color and continuity, the pass retains 3 points at
resolution 10 but 4 points at the coarser resolution 11 — dropping the
second point at resolution 11 changes the retained-angle state so that
two later points pass the angle clause.  The kept-point count is not
monotone in the resolution. -/
theorem c9_counterexample :
    (10 : ℚ) ≤ 11
    ∧ (retainedIndices (compress geomC9 (pC9 10) ptsC9)).length = 3
    ∧ (retainedIndices (compress geomC9 (pC9 11) ptsC9)).length = 4
    ∧ ¬ ((retainedIndices (compress geomC9 (pC9 11) ptsC9)).length
          ≤ (retainedIndices (compress geomC9 (pC9 10) ptsC9)).length) := by
  with_unfolding_all decide

/-- C9, amended: the per-point keep decision is monotone in the
resolution for a fixed last retained point — a point kept at a coarser
resolution would also be kept at any finer one; the global kept-point
count is nevertheless not monotone, because dropping a point changes the
reference point for later decisions (see the counterexample). -/
theorem c9_step_monotone (P : Params) (r1 r2 : ℚ) (h : r1 ≤ r2)
    (lp np : SegmentPoint)
    (hk : keepDecision { P with resolution := r2 } lp np = true) :
    keepDecision { P with resolution := r1 } lp np = true := by
  rw [keepDecision_eq_true_iff] at hk ⊢
  obtain ⟨h1, h2⟩ := hk
  refine ⟨h1, ?_⟩
  rcases h2 with hc | hc | hc | hc
  · exact Or.inl hc
  · exact Or.inr (Or.inl hc)
  · refine Or.inr (Or.inr (Or.inl ?_))
    have e2 : resolutionFor { P with resolution := r2 } np.x np.y
        = if onScreen P np.x np.y then r2 else 50 := rfl
    have e1 : resolutionFor { P with resolution := r1 } np.x np.y
        = if onScreen P np.x np.y then r1 else 50 := rfl
    rw [e2] at hc
    rw [e1]
    by_cases hos : onScreen P np.x np.y = true
    · rw [if_pos hos] at hc
      rw [if_pos hos]
      exact le_trans h hc
    · rw [if_neg hos] at hc
      rw [if_neg hos]
      exact hc
  · exact Or.inr (Or.inr (Or.inr hc))

/-- Witness for `c9_step_monotone`: a step of length 10 kept at
resolution 1 is also kept at resolution 0. -/
theorem c9_step_monotone_witness :
    (0 : ℚ) ≤ 1
    ∧ keepDecision { pC9 0 with resolution := 1 } (initSeg 0 0 0 "a")
        (mkSeg geomC9 (initSeg 0 0 0 "a") 10 0 1 "a" false) = true
    ∧ keepDecision { pC9 0 with resolution := 0 } (initSeg 0 0 0 "a")
        (mkSeg geomC9 (initSeg 0 0 0 "a") 10 0 1 "a" false) = true :=
  ⟨by norm_num, by with_unfolding_all decide,
   c9_step_monotone (pC9 0) 0 1 (by norm_num) _ _ (by with_unfolding_all decide)⟩

/-! ## Claim C5 -/

theorem binIdxNat_lt (k : ℕ) (hk : 1 ≤ k) (v : ℚ) : binIdxNat k v < k := by
  unfold binIdxNat
  have h1 : (1 : ℤ) ≤ (k : ℤ) := by exact_mod_cast hk
  have h2 : min ⌊v * (k : ℚ)⌋ ((k : ℤ) - 1) ≤ (k : ℤ) - 1 := min_le_right _ _
  have h3 : max (min ⌊v * (k : ℚ)⌋ ((k : ℤ) - 1)) 0 ≤ (k : ℤ) - 1 :=
    max_le h2 (by omega)
  omega

theorem binIndex_fin (k : ℕ) (v : ℚ) :
    binIndex (.fin (k : ℚ)) v = .fin ((binIdxNat k v : ℕ) : ℚ) := by
  unfold binIndex binIdxNat jsMul jsFloor jsSub lodashClamp lodashBound
  dsimp only
  congr 1
  have h0 : (0 : ℤ) ≤ max (min ⌊v * (k : ℚ)⌋ ((k : ℤ) - 1)) 0 := le_max_right _ _
  have hcast : (((max (min ⌊v * (k : ℚ)⌋ ((k : ℤ) - 1)) 0).toNat : ℕ) : ℚ)
      = ((max (min ⌊v * (k : ℚ)⌋ ((k : ℤ) - 1)) 0 : ℤ) : ℚ) := by
    rw [← Int.cast_natCast, Int.toNat_of_nonneg h0]
  rw [hcast]
  push_cast
  ring_nf

theorem mkBins1_getElem? (G : Geom) (pts : List α) (x : α → JSVal)
    (k : ℕ) (processed : List α) (n : ℕ) :
    (mkBins1 G pts x k processed)[n]?
      = if n < k then some ⟨n, processed.filter (binPred G pts x k n)⟩
        else none := by
  unfold mkBins1
  rw [List.getElem?_map]
  by_cases h : n < k
  · rw [List.getElem?_range h, if_pos h]
    rfl
  · rw [List.getElem?_eq_none (by simpa using Nat.le_of_not_lt h), if_neg h]
    rfl

theorem pushAt_mkBins (G : Geom) (pts : List α) (x : α → JSVal) {k : ℕ}
    (hk : 1 ≤ k) (processed : List α) (p : α) (v : ℚ)
    (hv : xValue1d G pts x p = some (.fin v)) :
    pushAt (mkBins1 G pts x k processed) (binIndex (.fin (k : ℚ)) v) p
      = some (mkBins1 G pts x k (processed ++ [p])) := by
  rw [binIndex_fin k v]
  have hlt := binIdxNat_lt k hk v
  unfold pushAt
  dsimp only
  have hidx : jsIndex ((binIdxNat k v : ℕ) : ℚ) = some (binIdxNat k v) := by
    unfold jsIndex
    rw [if_pos ⟨by positivity, Rat.den_natCast _⟩]
    rw [Rat.num_natCast]
    simp
  rw [hidx]
  dsimp only
  have hget : (mkBins1 G pts x k processed).get? (binIdxNat k v)
      = some ⟨binIdxNat k v, processed.filter (binPred G pts x k (binIdxNat k v))⟩ := by
    rw [List.get?_eq_getElem?, mkBins1_getElem?, if_pos hlt]
  rw [hget]
  dsimp only
  congr 1
  apply List.ext_getElem?
  intro n
  rw [List.getElem?_set, mkBins1_getElem?]
  have hlen : (mkBins1 G pts x k processed).length = k := by
    unfold mkBins1; simp
  by_cases he : binIdxNat k v = n
  · subst he
    rw [if_pos rfl, if_pos (by rw [hlen]; exact hlt), mkBins1_getElem?, if_pos hlt]
    have hfil : processed.filter (binPred G pts x k (binIdxNat k v)) ++ [p]
        = (processed ++ [p]).filter (binPred G pts x k (binIdxNat k v)) := by
      rw [List.filter_append]
      congr 1
      simp [List.filter, binPred, hv]
    rw [← hfil]
  · rw [if_neg he, mkBins1_getElem?]
    by_cases hn : n < k
    · rw [if_pos hn, if_pos hn]
      have hfil : (processed ++ [p]).filter (binPred G pts x k n)
          = processed.filter (binPred G pts x k n) := by
        rw [List.filter_append]
        have : [p].filter (binPred G pts x k n) = [] := by
          simp [List.filter, binPred, hv, he]
        rw [this, List.append_nil]
      rw [hfil]
    · rw [if_neg hn, if_neg hn]

theorem binStep1_mkBins (G : Geom) (pts : List α) (x : α → JSVal) {k : ℕ}
    (hk : 1 ≤ k) (processed : List α) (p : α) :
    binStep1 G pts x (.fin (k : ℚ)) (some (mkBins1 G pts x k processed)) p
      = some (mkBins1 G pts x k (processed ++ [p])) := by
  unfold binStep1
  dsimp only
  cases hv : xValue1d G pts x p with
  | none =>
    dsimp only
    congr 1
    unfold mkBins1
    refine List.map_congr_left (fun i _ => ?_)
    have : (processed ++ [p]).filter (binPred G pts x k i)
        = processed.filter (binPred G pts x k i) := by
      rw [List.filter_append]
      have : [p].filter (binPred G pts x k i) = [] := by
        simp [List.filter, binPred, hv]
      rw [this, List.append_nil]
    rw [this]
  | some w =>
    cases w with
    | nonfinite =>
      dsimp only
      congr 1
      unfold mkBins1
      refine List.map_congr_left (fun i _ => ?_)
      have : (processed ++ [p]).filter (binPred G pts x k i)
          = processed.filter (binPred G pts x k i) := by
        rw [List.filter_append]
        have : [p].filter (binPred G pts x k i) = [] := by
          simp [List.filter, binPred, hv]
        rw [this, List.append_nil]
      rw [this]
    | fin v => exact pushAt_mkBins G pts x hk processed p v hv

theorem bins1d_eq (G : Geom) (pts : List α) (x : α → JSVal) (k : ℕ)
    (hk : xBins1d G pts x = .fin (k : ℚ)) (hk1 : 1 ≤ k) :
    bins1d G pts x = some (mkBins1 G pts x k pts) := by
  unfold bins1d
  rw [hk]
  have hseed : lodashRangeLen (.fin (k : ℚ)) = k := by
    unfold lodashRangeLen
    dsimp only
    have hpos : (0 : ℚ) < (k : ℚ) := by exact_mod_cast Nat.lt_of_lt_of_le Nat.zero_lt_one hk1
    rw [if_neg (not_le.mpr hpos), Int.ceil_natCast]
    simp
  rw [hseed]
  have hseed2 : (seed1 k : List (Bin1 α)) = mkBins1 G pts x k [] := rfl
  rw [hseed2]
  suffices h : ∀ (l processed : List α),
      l.foldl (binStep1 G pts x (.fin (k : ℚ))) (some (mkBins1 G pts x k processed))
        = some (mkBins1 G pts x k (processed ++ l)) by
    simpa using h pts []
  intro l
  induction l with
  | nil => intro processed; simp
  | cons p ps ih =>
    intro processed
    rw [List.foldl_cons, binStep1_mkBins G pts x hk1 processed p, ih]
    simp

theorem listSumRange (f : ℕ → ℕ) (k : ℕ) :
    ((List.range k).map f).sum = ∑ i ∈ Finset.range k, f i := by
  induction k with
  | zero => rfl
  | succ n ih =>
    rw [List.range_succ, List.map_append, List.sum_append, Finset.sum_range_succ,
      ih]
    simp

theorem sum_filter_binPred (G : Geom) (pts : List α) (x : α → JSVal) {k : ℕ}
    (hk : 1 ≤ k) (l : List α) :
    (∑ i ∈ Finset.range k, (l.filter (binPred G pts x k i)).length)
      = (l.filter (finiteX G pts x)).length := by
  induction l with
  | nil => simp
  | cons p ps ih =>
    by_cases hfin : finiteX G pts x p = true
    · obtain ⟨v, hv⟩ : ∃ v, xValue1d G pts x p = some (.fin v) := by
        unfold finiteX at hfin
        cases hv : xValue1d G pts x p with
        | none => rw [hv] at hfin; simp at hfin
        | some w =>
          cases w with
          | nonfinite => rw [hv] at hfin; simp at hfin
          | fin v => exact ⟨v, rfl⟩
      have hterm : ∀ i, ((p :: ps).filter (binPred G pts x k i)).length
          = (if binIdxNat k v = i then 1 else 0)
            + (ps.filter (binPred G pts x k i)).length := by
        intro i
        rw [List.filter_cons]
        by_cases h : binIdxNat k v = i
        · rw [if_pos (by simp [binPred, hv, h]), if_pos h]
          simp
          omega
        · rw [if_neg (by simp [binPred, hv, h]), if_neg h]
          simp
      rw [Finset.sum_congr rfl (fun i _ => hterm i), Finset.sum_add_distrib,
        Finset.sum_ite_eq,
        if_pos (Finset.mem_range.mpr (binIdxNat_lt k hk v)), ih,
        List.filter_cons, if_pos hfin]
      simp
      omega
    · have hv : ∀ i, binPred G pts x k i p = false := by
        intro i
        unfold binPred
        unfold finiteX at hfin
        cases hv : xValue1d G pts x p with
        | none => rfl
        | some w =>
          cases w with
          | nonfinite => rfl
          | fin v => rw [hv] at hfin; simp at hfin
      have hterm : ∀ i, ((p :: ps).filter (binPred G pts x k i)).length
          = (ps.filter (binPred G pts x k i)).length := by
        intro i
        rw [List.filter_cons, if_neg (by simp [hv])]
      rw [Finset.sum_congr rfl (fun i _ => hterm i), ih, List.filter_cons,
        if_neg (by simp [hfin])]

theorem binIdxNat_one (k : ℕ) (hk : 1 ≤ k) : binIdxNat k 1 = k - 1 := by
  unfold binIdxNat
  rw [one_mul, Int.floor_natCast]
  have h1 : (1 : ℤ) ≤ (k : ℤ) := by exact_mod_cast hk
  have hmin : min (k : ℤ) ((k : ℤ) - 1) = (k : ℤ) - 1 := min_eq_right (by omega)
  rw [hmin]
  have hmax : max ((k : ℤ) - 1) 0 = (k : ℤ) - 1 := max_eq_left (by omega)
  rw [hmax]
  omega

/-- C5: when the computed bin count is a finite number k ≥ 1, 1D binning
succeeds and partitions the records with a finite normalized x value:
the output has exactly k bins, bin i holding (in input order) precisely
the records whose clamped index `clamp(floor(normalizedX × k), 0, k−1)`
is i; each such record is in bin i iff i is its clamped index (so in
exactly one bin); a record at the exact maximum (normalized value 1)
has clamped index k − 1, the last bin; and the bins' member counts sum
to the number of finite-valued records. -/
theorem c5_binning_partition (G : Geom) (pts : List α) (x : α → JSVal) (k : ℕ)
    (hk : xBins1d G pts x = .fin (k : ℚ)) (hk1 : 1 ≤ k) :
    ∃ bs, bins1d G pts x = some bs
      ∧ bs.length = k
      ∧ (∀ i, i < k → bs[i]? = some ⟨i, pts.filter (binPred G pts x k i)⟩)
      ∧ (∀ p ∈ pts, ∀ v : ℚ, xValue1d G pts x p = some (.fin v) →
          binIdxNat k v < k
          ∧ ∀ i b, bs[i]? = some b → (p ∈ b.data ↔ i = binIdxNat k v))
      ∧ binIdxNat k 1 = k - 1
      ∧ (bs.map (fun b => b.data.length)).sum
          = (pts.filter (finiteX G pts x)).length := by
  refine ⟨mkBins1 G pts x k pts, bins1d_eq G pts x k hk hk1, ?_, ?_, ?_,
    binIdxNat_one k hk1, ?_⟩
  · unfold mkBins1; simp
  · intro i hi
    rw [mkBins1_getElem?, if_pos hi]
  · intro p hp v hv
    refine ⟨binIdxNat_lt k hk1 v, ?_⟩
    intro i b hb
    by_cases hi : i < k
    · rw [mkBins1_getElem?, if_pos hi] at hb
      obtain rfl := Option.some_inj.mp hb
      constructor
      · intro hmem
        have hpred := (List.mem_filter.mp hmem).2
        simp only [binPred, hv, decide_eq_true_eq] at hpred
        exact hpred.symm
      · rintro rfl
        refine List.mem_filter.mpr ⟨hp, ?_⟩
        simp [binPred, hv]
    · rw [mkBins1_getElem?, if_neg hi] at hb
      exact absurd hb (by simp)
  · show ((List.range k).map (fun i =>
        (⟨i, pts.filter (binPred G pts x k i)⟩ : Bin1 α))
          |>.map (fun b => b.data.length)).sum = _
    rw [List.map_map]
    show ((List.range k).map
      (fun i => (pts.filter (binPred G pts x k i)).length)).sum = _
    rw [listSumRange]
    exact sum_filter_binPred G pts x hk1 pts

/-- Witness for `c5_binning_partition`: the eight values 0..7 give bin
width 35/8 and a single bin (k = 1) containing all eight records. -/
theorem c5_binning_partition_witness :
    xBins1d geomFD ptsC5 (fun v => v) = .fin ((1 : ℕ) : ℚ)
    ∧ ∃ bs, bins1d geomFD ptsC5 (fun v => v) = some bs
        ∧ bs.length = 1
        ∧ (∀ i, i < 1 →
            bs[i]? = some ⟨i, ptsC5.filter (binPred geomFD ptsC5 (fun v => v) 1 i)⟩)
        ∧ (∀ p ∈ ptsC5, ∀ v : ℚ,
            xValue1d geomFD ptsC5 (fun v => v) p = some (.fin v) →
            binIdxNat 1 v < 1
            ∧ ∀ i b, bs[i]? = some b → (p ∈ b.data ↔ i = binIdxNat 1 v))
        ∧ binIdxNat 1 1 = 1 - 1
        ∧ (bs.map (fun b => b.data.length)).sum
            = (ptsC5.filter (finiteX geomFD ptsC5 (fun v => v))).length :=
  ⟨by with_unfolding_all decide,
   c5_binning_partition geomFD ptsC5 (fun v => v) 1
     (by with_unfolding_all decide) (by norm_num)⟩

/-! ## Claim C7 -/

theorem gridPairs_length (kx ky : ℕ) : (gridPairs kx ky).length = kx * ky := by
  induction kx with
  | zero => simp [gridPairs]
  | succ n ih =>
    unfold gridPairs at ih ⊢
    rw [List.range_succ, List.map_append, List.flatten_append, List.length_append,
      ih]
    simp [Nat.succ_mul]

theorem mem_gridPairs {kx ky i j : ℕ} :
    (i, j) ∈ gridPairs kx ky ↔ i < kx ∧ j < ky := by
  unfold gridPairs
  simp only [List.mem_flatten, List.mem_map, List.mem_range]
  constructor
  · rintro ⟨l, ⟨a, ha, rfl⟩, hm⟩
    obtain ⟨b, hb, he⟩ := List.mem_map.mp hm
    cases he
    exact ⟨ha, List.mem_range.mp hb⟩
  · rintro ⟨hi, hj⟩
    exact ⟨(List.range ky).map (fun j => (i, j)), ⟨i, hi, rfl⟩,
      List.mem_map_of_mem _ (List.mem_range.mpr hj)⟩

theorem jsIndex_natCast (n : ℕ) : jsIndex ((n : ℕ) : ℚ) = some n := by
  unfold jsIndex
  rw [if_pos ⟨by positivity, Rat.den_natCast _⟩, Rat.num_natCast]
  simp

theorem mkBins2_skip (G : Geom) (pts : List α) (x y : α → JSVal)
    (kx ky : ℕ) (processed : List α) (p : α)
    (h : ∀ ij, binPred2 G pts x y kx ky ij p = false) :
    mkBins2 G pts x y kx ky (processed ++ [p])
      = mkBins2 G pts x y kx ky processed := by
  unfold mkBins2
  refine List.map_congr_left (fun ij _ => ?_)
  rw [List.filter_append]
  have he : [p].filter (binPred2 G pts x y kx ky ij) = [] := by
    simp [List.filter, h]
  rw [he, List.append_nil]

theorem pushAt2_mkBins (G : Geom) (pts : List α) (x y : α → JSVal)
    {kx ky : ℕ} (hkx : 1 ≤ kx) (hky : 1 ≤ ky)
    (processed : List α) (p : α) (vx vy : ℚ)
    (hvx : attrScaleApply G pts x noOverride p = some (.fin vx))
    (hvy : attrScaleApply G pts y noOverride p = some (.fin vy)) :
    pushAt2 (mkBins2 G pts x y kx ky processed)
        (some (binIdxNat kx vx, binIdxNat ky vy)) p
      = some (mkBins2 G pts x y kx ky (processed ++ [p])) := by
  unfold pushAt2
  dsimp only
  have hmem : (binIdxNat kx vx, binIdxNat ky vy) ∈ gridPairs kx ky :=
    mem_gridPairs.mpr ⟨binIdxNat_lt kx hkx vx, binIdxNat_lt ky hky vy⟩
  have hany : (mkBins2 G pts x y kx ky processed).any
      (fun b => decide (b.xBin = binIdxNat kx vx)
        && decide (b.yBin = binIdxNat ky vy)) = true := by
    rw [List.any_eq_true]
    refine ⟨⟨binIdxNat kx vx, binIdxNat ky vy,
      processed.filter (binPred2 G pts x y kx ky
        (binIdxNat kx vx, binIdxNat ky vy))⟩, ?_, by simp⟩
    exact List.mem_map_of_mem _ hmem
  rw [if_pos hany]
  congr 1
  unfold mkBins2
  rw [List.map_map]
  refine List.map_congr_left (fun ij hij => ?_)
  dsimp only [Function.comp]
  by_cases hp : binIdxNat kx vx = ij.1 ∧ binIdxNat ky vy = ij.2
  · rw [if_pos ⟨hp.1.symm, hp.2.symm⟩]
    have he : (processed ++ [p]).filter (binPred2 G pts x y kx ky ij)
        = processed.filter (binPred2 G pts x y kx ky ij) ++ [p] := by
      rw [List.filter_append]
      congr 1
      simp [List.filter, binPred2, hvx, hvy, hp]
    rw [he]
  · rw [if_neg (fun hc => hp ⟨hc.1.symm, hc.2.symm⟩)]
    have he : (processed ++ [p]).filter (binPred2 G pts x y kx ky ij)
        = processed.filter (binPred2 G pts x y kx ky ij) := by
      rw [List.filter_append]
      have h0 : [p].filter (binPred2 G pts x y kx ky ij) = [] := by
        simp only [List.filter, binPred2, hvx, hvy]
        rw [decide_eq_false hp]
      rw [h0, List.append_nil]
    rw [he]

theorem binStep2_mkBins (G : Geom) (pts : List α) (x y : α → JSVal)
    {kx ky : ℕ} (hkx : 1 ≤ kx) (hky : 1 ≤ ky) (processed : List α) (p : α) :
    binStep2 G pts x y (.fin (kx : ℚ)) (.fin (ky : ℚ))
        (some (mkBins2 G pts x y kx ky processed)) p
      = some (mkBins2 G pts x y kx ky (processed ++ [p])) := by
  unfold binStep2
  dsimp only
  cases hvx : attrScaleApply G pts x noOverride p with
  | none =>
    dsimp only
    rw [mkBins2_skip G pts x y kx ky processed p (fun ij => by
      simp [binPred2, hvx])]
  | some wx =>
    cases wx with
    | nonfinite =>
      dsimp only
      cases hvy : attrScaleApply G pts y noOverride p <;>
        rw [mkBins2_skip G pts x y kx ky processed p (fun ij => by
          simp [binPred2, hvx])]
    | fin vx =>
      cases hvy : attrScaleApply G pts y noOverride p with
      | none =>
        dsimp only
        rw [mkBins2_skip G pts x y kx ky processed p (fun ij => by
          simp [binPred2, hvx, hvy])]
      | some wy =>
        cases wy with
        | nonfinite =>
          dsimp only
          rw [mkBins2_skip G pts x y kx ky processed p (fun ij => by
            simp [binPred2, hvx, hvy])]
        | fin vy =>
          dsimp only
          have hkey : gridKey (binIndex (.fin (kx : ℚ)) vx)
              (binIndex (.fin (ky : ℚ)) vy)
              = some (binIdxNat kx vx, binIdxNat ky vy) := by
            rw [binIndex_fin, binIndex_fin]
            unfold gridKey
            dsimp only
            rw [jsIndex_natCast, jsIndex_natCast]
          rw [hkey]
          exact pushAt2_mkBins G pts x y hkx hky processed p vx vy hvx hvy

theorem lodashTimesLen_natCast (k : ℕ) (hk : 1 ≤ k) :
    lodashTimesLen (.fin (k : ℚ)) = k := by
  unfold lodashTimesLen
  dsimp only
  have hone : (1 : ℚ) ≤ (k : ℚ) := by exact_mod_cast hk
  rw [if_neg (not_lt.mpr hone), Int.floor_natCast]
  simp

theorem bins2d_eq (G : Geom) (pts : List α) (x y : α → JSVal) (kx ky : ℕ)
    (hkx : xBins2d G pts x = .fin (kx : ℚ)) (hky : yBins2d G pts y = .fin (ky : ℚ))
    (hkx1 : 1 ≤ kx) (hky1 : 1 ≤ ky) :
    bins2d G pts x y = some (mkBins2 G pts x y kx ky pts) := by
  unfold bins2d
  rw [hkx, hky, lodashTimesLen_natCast kx hkx1, lodashTimesLen_natCast ky hky1]
  have hseed : (seed2 kx ky : List (Bin2 α)) = mkBins2 G pts x y kx ky [] := rfl
  rw [hseed]
  suffices h : ∀ (l processed : List α),
      l.foldl (binStep2 G pts x y (.fin (kx : ℚ)) (.fin (ky : ℚ)))
          (some (mkBins2 G pts x y kx ky processed))
        = some (mkBins2 G pts x y kx ky (processed ++ l)) by
    simpa using h pts []
  intro l
  induction l with
  | nil => intro processed; simp
  | cons p ps ih =>
    intro processed
    rw [List.foldl_cons, binStep2_mkBins G pts x y hkx1 hky1 processed p, ih]
    simp

/-- C7, counterexample: on a single-record input both ranges are zero,
both bin counts are `floor(0/0) = NaN`, no cells are seeded, and the
(finite-valued: both accessors yield 1) record's push into the missing
key throws — the output is not a dense kx × ky grid holding the record;
2D binning fails. -/
theorem c7_counterexample :
    finiteXY geomTriv ptsC7bad Prod.fst Prod.snd
        ((JSVal.num (.fin 1)), (JSVal.num (.fin 1))) = true
    ∧ xBins2d geomTriv ptsC7bad Prod.fst = .nonfinite
    ∧ yBins2d geomTriv ptsC7bad Prod.snd = .nonfinite
    ∧ bins2d geomTriv ptsC7bad Prod.fst Prod.snd = none := by
  with_unfolding_all decide

/-- C7, amended: when the computed bin counts are finite numbers
kx, ky ≥ 1, the 2D binning output contains exactly kx × ky bins, in
x-major order, exactly one for each index pair of the grid (including
empty cells); each record with finite scaled x and y values lies in a
cell iff that cell's index pair is its clamped pair, so it is added to
exactly one pre-seeded cell, and no cell outside the grid is ever
created. -/
theorem c7_grid_complete (G : Geom) (pts : List α) (x y : α → JSVal)
    (kx ky : ℕ)
    (hkx : xBins2d G pts x = .fin (kx : ℚ)) (hky : yBins2d G pts y = .fin (ky : ℚ))
    (hkx1 : 1 ≤ kx) (hky1 : 1 ≤ ky) :
    ∃ bs, bins2d G pts x y = some bs
      ∧ bs.length = kx * ky
      ∧ bs.map (fun b => (b.xBin, b.yBin)) = gridPairs kx ky
      ∧ (∀ i j, (∃ b ∈ bs, b.xBin = i ∧ b.yBin = j) ↔ i < kx ∧ j < ky)
      ∧ (∀ b ∈ bs, b.data
          = pts.filter (binPred2 G pts x y kx ky (b.xBin, b.yBin)))
      ∧ (∀ p ∈ pts, ∀ vx vy : ℚ,
          attrScaleApply G pts x noOverride p = some (.fin vx) →
          attrScaleApply G pts y noOverride p = some (.fin vy) →
          ∀ b ∈ bs, (p ∈ b.data
            ↔ (b.xBin = binIdxNat kx vx ∧ b.yBin = binIdxNat ky vy))) := by
  have hkeys : (mkBins2 G pts x y kx ky pts).map (fun b => (b.xBin, b.yBin))
      = gridPairs kx ky := by
    unfold mkBins2
    rw [List.map_map]
    exact List.map_id _
  refine ⟨mkBins2 G pts x y kx ky pts,
    bins2d_eq G pts x y kx ky hkx hky hkx1 hky1, ?_, hkeys, ?_, ?_, ?_⟩
  · unfold mkBins2
    rw [List.length_map]
    exact gridPairs_length kx ky
  · intro i j
    constructor
    · rintro ⟨b, hb, h1, h2⟩
      have : (i, j) ∈ (mkBins2 G pts x y kx ky pts).map (fun b => (b.xBin, b.yBin)) := by
        rw [← h1, ← h2]
        exact List.mem_map_of_mem _ hb
      rw [hkeys] at this
      exact mem_gridPairs.mp this
    · rintro ⟨hi, hj⟩
      have : (i, j) ∈ gridPairs kx ky := mem_gridPairs.mpr ⟨hi, hj⟩
      exact ⟨⟨i, j, pts.filter (binPred2 G pts x y kx ky (i, j))⟩,
        List.mem_map_of_mem _ this, rfl, rfl⟩
  · intro b hb
    obtain ⟨ij, _, rfl⟩ := List.mem_map.mp hb
    rfl
  · intro p hp vx vy hvx hvy b hb
    obtain ⟨ij, _, rfl⟩ := List.mem_map.mp hb
    dsimp only
    constructor
    · intro hmem
      have hpred := (List.mem_filter.mp hmem).2
      simp only [binPred2, hvx, hvy, decide_eq_true_eq] at hpred
      exact ⟨hpred.1.symm, hpred.2.symm⟩
    · rintro ⟨h1, h2⟩
      refine List.mem_filter.mpr ⟨hp, ?_⟩
      simp [binPred2, hvx, hvy, h1, h2]

/-- Witness for `c7_grid_complete`: the pairs (i, i), i = 0..7, give
kx = 20 (the range/20 clamp) and ky = 1 (the unclamped FD width). -/
theorem c7_grid_complete_witness :
    xBins2d geomFD ptsC7 Prod.fst = .fin ((20 : ℕ) : ℚ)
    ∧ yBins2d geomFD ptsC7 Prod.snd = .fin ((1 : ℕ) : ℚ)
    ∧ ∃ bs, bins2d geomFD ptsC7 Prod.fst Prod.snd = some bs
        ∧ bs.length = 20 * 1
        ∧ bs.map (fun b => (b.xBin, b.yBin)) = gridPairs 20 1
        ∧ (∀ i j, (∃ b ∈ bs, b.xBin = i ∧ b.yBin = j) ↔ i < 20 ∧ j < 1)
        ∧ (∀ b ∈ bs, b.data
            = ptsC7.filter (binPred2 geomFD ptsC7 Prod.fst Prod.snd 20 1
                (b.xBin, b.yBin)))
        ∧ (∀ p ∈ ptsC7, ∀ vx vy : ℚ,
            attrScaleApply geomFD ptsC7 Prod.fst noOverride p = some (.fin vx) →
            attrScaleApply geomFD ptsC7 Prod.snd noOverride p = some (.fin vy) →
            ∀ b ∈ bs, (p ∈ b.data
              ↔ (b.xBin = binIdxNat 20 vx ∧ b.yBin = binIdxNat 1 vy))) :=
  ⟨by with_unfolding_all decide, by with_unfolding_all decide,
   c7_grid_complete geomFD ptsC7 Prod.fst Prod.snd 20 1
     (by with_unfolding_all decide) (by with_unfolding_all decide)
     (by norm_num) (by norm_num)⟩

end Chart
